import Mathlib

/-!
Verification of the core of the job-posting fraud-classification service
(`docker/app/main.py`): the text-normalization pipeline `preprocess_text`,
the model/vectorizer resolution-and-caching layer `load_model_and_vectorizer`
over the fixed registry `MODEL_CONFIG`, and the prediction endpoint
`predict_fraud`.

Modelling conventions:
* Python strings are Lean `String`s (lists of Unicode scalar values); `len`
  is `String.length` (a count of code points, as in Python).
* The regular expression `[^\w\s]` of `re.sub(r'[^\w\s]', '', s)` is modelled
  by the character classes `isWordChar` (alphanumeric or underscore) and
  `isSpaceChar` (the six ASCII whitespace characters matched by `\s`).
* `re.sub(r'\s+', ' ', s).strip()` is modelled denotationally: split the
  string into maximal whitespace-free runs (`wsTokens`) and re-join them
  with single spaces (`joinWithSpace`).
* The NLTK collaborators are external to the repository.  `word_tokenize`
  (the Punkt/treebank tokenizer) is modelled as whitespace tokenization,
  which is its behaviour on the punctuation-free, whitespace-collapsed
  strings it receives at this call site; the stop-word set and the WordNet
  lemmatizer are opaque parameters collected in `NLPEnv`.
* The artifact store (`joblib.load` over the `model_assets` directory) is an
  opaque map from filenames to either an artifact or a failure; Python's
  `FileNotFoundError` and any other load-time exception are the two failure
  kinds.  Loaded models/vectorizers are duck-typed objects exposing
  `transform`, `predict` and `predict_proba`; probabilities are rationals.
* Exceptions are `Except`; the mutable module-level caches `model_cache` /
  `vectorizer_cache` are explicit state threaded through the functions.
-/

namespace JobClassifier

/-! ## Character classes (the `\w` and `\s` regex classes) -/

/-- Membership in the regex class `\w`: letters, digits, or underscore. -/
def isWordChar (c : Char) : Bool := c.isAlphanum || c == '_'

/-- Membership in the regex class `\s`: space, tab, newline, carriage
return, vertical tab, form feed. -/
def isSpaceChar (c : Char) : Bool :=
  c == ' ' || c == '\t' || c == '\n' || c == '\r' ||
  c == Char.ofNat 11 || c == Char.ofNat 12

/-- Characters kept by `re.sub(r'[^\w\s]', '', s)`. -/
def keepChar (c : Char) : Bool := isWordChar c || isSpaceChar c

theorem space_not_word {c : Char} (h : isSpaceChar c = true) : isWordChar c = false := by
  simp only [isSpaceChar, Bool.or_eq_true, beq_iff_eq] at h
  rcases h with ((((h | h) | h) | h) | h) | h <;> subst h <;> decide

theorem word_not_space {c : Char} (h : isWordChar c = true) : isSpaceChar c = false := by
  cases hs : isSpaceChar c with
  | false => rfl
  | true => rw [space_not_word hs] at h; exact absurd h (by simp)

/-! ## `Char.toLower` facts (Python's `str.lower` per character) -/

theorem char_toNat_ofNat_valid (n : Nat) (h : n.isValidChar) :
    (Char.ofNat n).toNat = n := by
  rw [Char.ofNat, dif_pos h]
  simp [Char.ofNatAux, Char.toNat, UInt32.toNat, BitVec.toNat_ofNatLt]

theorem toLower_of_not_upper_range {d : Char} (h : ¬(d.toNat ≥ 65 ∧ d.toNat ≤ 90)) :
    d.toLower = d := by
  rw [Char.toLower]; exact if_neg h

theorem toLower_toLower (c : Char) : c.toLower.toLower = c.toLower := by
  by_cases h : c.toNat ≥ 65 ∧ c.toNat ≤ 90
  · have h1 : c.toLower = Char.ofNat (c.toNat + 32) := by
      rw [Char.toLower]; exact if_pos h
    have hv : (c.toNat + 32).isValidChar := Or.inl (by omega)
    rw [h1]
    exact toLower_of_not_upper_range (by rw [char_toNat_ofNat_valid _ hv]; omega)
  · have h1 := toLower_of_not_upper_range h
    rw [h1, h1]

theorem toLower_of_not_word {c : Char} (h : isWordChar c = false) : c.toLower = c := by
  apply toLower_of_not_upper_range
  intro hb
  have hu : c.isUpper = true := by
    simp only [Char.isUpper, Bool.and_eq_true, decide_eq_true_eq]
    exact ⟨hb.1, hb.2⟩
  have : isWordChar c = true := by
    simp [isWordChar, Char.isAlphanum, Char.isAlpha, hu]
  rw [h] at this; exact absurd this (by simp)

theorem keepChar_toLower_of_not_keep {c : Char} (h : keepChar c = false) :
    keepChar c.toLower = false := by
  have hw : isWordChar c = false := by
    cases hx : isWordChar c with
    | false => rfl
    | true => rw [keepChar, hx] at h; simp at h
  rw [toLower_of_not_word hw]; exact h

/-! ## Generic list helpers -/

theorem length_dropWhile_le {α : Type} (p : α → Bool) (l : List α) :
    (l.dropWhile p).length ≤ l.length := by
  induction l with
  | nil => simp [List.dropWhile]
  | cons a l ih =>
    rw [List.dropWhile_cons]
    split
    · exact Nat.le_trans ih (Nat.le_succ _)
    · simp

theorem takeWhile_all {α : Type} (p : α → Bool) (l : List α)
    (h : ∀ x ∈ l, p x = true) : l.takeWhile p = l := by
  induction l with
  | nil => rfl
  | cons a l ih =>
    rw [List.takeWhile_cons, if_pos (h a (List.mem_cons_self a l))]
    rw [ih (fun x hx => h x (List.mem_cons_of_mem a hx))]

theorem dropWhile_all {α : Type} (p : α → Bool) (l : List α)
    (h : ∀ x ∈ l, p x = true) : l.dropWhile p = [] := by
  induction l with
  | nil => rfl
  | cons a l ih =>
    rw [List.dropWhile_cons, if_pos (h a (List.mem_cons_self a l))]
    exact ih (fun x hx => h x (List.mem_cons_of_mem a hx))

theorem takeWhile_append_all {α : Type} (p : α → Bool) (a b : List α)
    (h : ∀ x ∈ a, p x = true) : (a ++ b).takeWhile p = a ++ b.takeWhile p := by
  induction a with
  | nil => rfl
  | cons x xs ih =>
    rw [List.cons_append, List.takeWhile_cons, if_pos (h x (List.mem_cons_self x xs))]
    rw [ih (fun y hy => h y (List.mem_cons_of_mem x hy)), List.cons_append]

theorem dropWhile_append_all {α : Type} (p : α → Bool) (a b : List α)
    (h : ∀ x ∈ a, p x = true) : (a ++ b).dropWhile p = b.dropWhile p := by
  induction a with
  | nil => rfl
  | cons x xs ih =>
    rw [List.cons_append, List.dropWhile_cons, if_pos (h x (List.mem_cons_self x xs))]
    exact ih (fun y hy => h y (List.mem_cons_of_mem x hy))

theorem map_id_of {α : Type} (f : α → α) (l : List α)
    (h : ∀ x ∈ l, f x = x) : l.map f = l := by
  induction l with
  | nil => rfl
  | cons a l ih =>
    rw [List.map_cons, h a (List.mem_cons_self a l)]
    rw [ih (fun x hx => h x (List.mem_cons_of_mem a hx))]

theorem filter_all {α : Type} (p : α → Bool) (l : List α)
    (h : ∀ x ∈ l, p x = true) : l.filter p = l := by
  induction l with
  | nil => rfl
  | cons a l ih =>
    rw [List.filter_cons, if_pos (h a (List.mem_cons_self a l))]
    rw [ih (fun x hx => h x (List.mem_cons_of_mem a hx))]

/-! ## Whitespace segmentation

`wsTokens l` is the list of maximal whitespace-free runs of `l`, and
`joinWithSpace` interleaves a single `' '` between runs.  Together they give
the denotation of `re.sub(r'\s+', ' ', s).strip()` and of whitespace
tokenization. -/

def wsTokens : List Char → List (List Char)
  | [] => []
  | c :: cs =>
    if isSpaceChar c then wsTokens cs
    else (c :: cs.takeWhile (fun x => !isSpaceChar x)) ::
      wsTokens (cs.dropWhile (fun x => !isSpaceChar x))
termination_by l => l.length
decreasing_by
  · simp only [List.length_cons]; omega
  · simp only [List.length_cons]
    exact Nat.lt_succ_of_le (length_dropWhile_le _ _)

def joinWithSpace : List (List Char) → List Char
  | [] => []
  | [t] => t
  | t :: ts => t ++ ' ' :: joinWithSpace ts

theorem wsTokens_nil : wsTokens [] = [] := by rw [wsTokens]

theorem wsTokens_cons (c : Char) (cs : List Char) :
    wsTokens (c :: cs) =
      if isSpaceChar c then wsTokens cs
      else (c :: cs.takeWhile (fun x => !isSpaceChar x)) ::
        wsTokens (cs.dropWhile (fun x => !isSpaceChar x)) := by
  rw [wsTokens]

theorem mem_of_takeWhile {α : Type} {p : α → Bool} {l : List α} {x : α}
    (h : x ∈ l.takeWhile p) : x ∈ l := by
  induction l with
  | nil => simp [List.takeWhile] at h
  | cons a l ih =>
    rw [List.takeWhile_cons] at h
    by_cases ha : p a = true
    · rw [if_pos ha] at h
      rcases List.mem_cons.mp h with h1 | h2
      · exact h1 ▸ List.mem_cons_self a l
      · exact List.mem_cons_of_mem a (ih h2)
    · rw [if_neg ha] at h
      exact absurd h (List.not_mem_nil x)

theorem mem_of_dropWhile {α : Type} {p : α → Bool} {l : List α} {x : α}
    (h : x ∈ l.dropWhile p) : x ∈ l := by
  induction l with
  | nil => simp [List.dropWhile] at h
  | cons a l ih =>
    rw [List.dropWhile_cons] at h
    by_cases ha : p a = true
    · rw [if_pos ha] at h
      exact List.mem_cons_of_mem a (ih h)
    · rw [if_neg ha] at h
      exact h

theorem wsTokens_sound_aux :
    ∀ (n : Nat) (l : List Char), l.length ≤ n →
      ∀ t ∈ wsTokens l, t ≠ [] ∧ ∀ c ∈ t, isSpaceChar c = false := by
  intro n
  induction n with
  | zero =>
    intro l hl t ht
    have hn : l = [] := List.eq_nil_of_length_eq_zero (Nat.le_zero.mp hl)
    subst hn
    rw [wsTokens_nil] at ht
    exact absurd ht (List.not_mem_nil t)
  | succ n ih =>
    intro l hl t ht
    match l with
    | [] =>
      rw [wsTokens_nil] at ht
      exact absurd ht (List.not_mem_nil t)
    | c :: cs =>
      have hcs : cs.length ≤ n := by
        rw [List.length_cons] at hl
        exact Nat.le_of_succ_le_succ hl
      rw [wsTokens_cons] at ht
      by_cases hc : isSpaceChar c = true
      · rw [if_pos hc] at ht
        exact ih cs hcs t ht
      · rw [if_neg hc] at ht
        rcases List.mem_cons.mp ht with h1 | h2
        · subst h1
          refine ⟨by simp, ?_⟩
          intro x hx
          rcases List.mem_cons.mp hx with h3 | h4
          · subst h3
            exact eq_false_of_ne_true hc
          · have h5 := List.mem_takeWhile_imp h4
            simpa using h5
        · refine ih _ ?_ t h2
          exact Nat.le_trans (length_dropWhile_le _ cs) hcs

theorem wsTokens_sound (l : List Char) :
    ∀ t ∈ wsTokens l, t ≠ [] ∧ ∀ c ∈ t, isSpaceChar c = false :=
  wsTokens_sound_aux l.length l (Nat.le_refl _)

theorem wsTokens_subset_aux :
    ∀ (n : Nat) (l : List Char), l.length ≤ n →
      ∀ t ∈ wsTokens l, ∀ c ∈ t, c ∈ l := by
  intro n
  induction n with
  | zero =>
    intro l hl t ht
    have hn : l = [] := List.eq_nil_of_length_eq_zero (Nat.le_zero.mp hl)
    subst hn
    rw [wsTokens_nil] at ht
    exact absurd ht (List.not_mem_nil t)
  | succ n ih =>
    intro l hl t ht x hx
    match l with
    | [] =>
      rw [wsTokens_nil] at ht
      exact absurd ht (List.not_mem_nil t)
    | c :: cs =>
      have hcs : cs.length ≤ n := by
        rw [List.length_cons] at hl
        exact Nat.le_of_succ_le_succ hl
      rw [wsTokens_cons] at ht
      by_cases hc : isSpaceChar c = true
      · rw [if_pos hc] at ht
        exact List.mem_cons_of_mem c (ih cs hcs t ht x hx)
      · rw [if_neg hc] at ht
        rcases List.mem_cons.mp ht with h1 | h2
        · subst h1
          rcases List.mem_cons.mp hx with h3 | h4
          · exact h3 ▸ List.mem_cons_self c cs
          · exact List.mem_cons_of_mem c (mem_of_takeWhile h4)
        · have h5 := ih _ (Nat.le_trans (length_dropWhile_le _ cs) hcs) t h2 x hx
          exact List.mem_cons_of_mem c (mem_of_dropWhile h5)

theorem wsTokens_subset (l : List Char) :
    ∀ t ∈ wsTokens l, ∀ c ∈ t, c ∈ l :=
  wsTokens_subset_aux l.length l (Nat.le_refl _)

theorem wsTokens_single (t : List Char) (hne : t ≠ [])
    (hns : ∀ c ∈ t, isSpaceChar c = false) : wsTokens t = [t] := by
  match t with
  | [] => exact absurd rfl hne
  | c :: cs =>
    have hq : ∀ x ∈ cs, (!isSpaceChar x) = true := by
      intro x hx
      rw [hns x (List.mem_cons_of_mem c hx)]
      rfl
    rw [wsTokens_cons, if_neg (by rw [hns c (List.mem_cons_self c cs)]; simp)]
    rw [takeWhile_all _ cs hq, dropWhile_all _ cs hq, wsTokens_nil]

theorem wsTokens_sep_append (t l : List Char) (hne : t ≠ [])
    (hns : ∀ c ∈ t, isSpaceChar c = false) :
    wsTokens (t ++ ' ' :: l) = t :: wsTokens l := by
  match t with
  | [] => exact absurd rfl hne
  | c :: cs =>
    have hq : ∀ x ∈ cs, (!isSpaceChar x) = true := by
      intro x hx
      rw [hns x (List.mem_cons_of_mem c hx)]
      rfl
    rw [List.cons_append, wsTokens_cons,
      if_neg (by rw [hns c (List.mem_cons_self c cs)]; simp)]
    rw [takeWhile_append_all _ cs (' ' :: l) hq, dropWhile_append_all _ cs (' ' :: l) hq]
    rw [List.takeWhile_cons, if_neg (by decide), List.dropWhile_cons, if_neg (by decide)]
    rw [List.append_nil, wsTokens_cons, if_pos (by decide)]

theorem wsTokens_joinWithSpace (ts : List (List Char))
    (h : ∀ t ∈ ts, t ≠ [] ∧ ∀ c ∈ t, isSpaceChar c = false) :
    wsTokens (joinWithSpace ts) = ts := by
  induction ts with
  | nil => exact wsTokens_nil
  | cons t ts ih =>
    cases ts with
    | nil =>
      have ht := h t (List.mem_cons_self t [])
      exact wsTokens_single t ht.1 ht.2
    | cons t' ts' =>
      have ht := h t (List.mem_cons_self t _)
      show wsTokens (t ++ ' ' :: joinWithSpace (t' :: ts')) = t :: t' :: ts'
      rw [wsTokens_sep_append t _ ht.1 ht.2]
      rw [ih (fun u hu => h u (List.mem_cons_of_mem t hu))]

theorem mem_joinWithSpace {c : Char} {ts : List (List Char)}
    (h : c ∈ joinWithSpace ts) : c = ' ' ∨ ∃ t ∈ ts, c ∈ t := by
  induction ts with
  | nil => exact absurd h (List.not_mem_nil c)
  | cons t ts ih =>
    cases ts with
    | nil =>
      exact Or.inr ⟨t, List.mem_cons_self t [], h⟩
    | cons t' ts' =>
      have h2 : c ∈ t ++ ' ' :: joinWithSpace (t' :: ts') := h
      rcases List.mem_append.mp h2 with h3 | h4
      · exact Or.inr ⟨t, List.mem_cons_self t _, h3⟩
      · rcases List.mem_cons.mp h4 with h5 | h6
        · exact Or.inl h5
        · rcases ih h6 with h7 | ⟨u, hu, hcu⟩
          · exact Or.inl h7
          · exact Or.inr ⟨u, List.mem_cons_of_mem t hu, hcu⟩

/-! ## Text Normalizer (`preprocess_text` in `docker/app/main.py`)

The stop-word set (`set(stopwords.words('english'))`) and the WordNet
lemmatizer (`WordNetLemmatizer().lemmatize`, default noun part of speech)
are process-wide NLTK collaborators external to the repository; the
normalizer is parameterized over them. -/

/-- The two process-wide NLTK collaborators of the pipeline: the stop-word
set (as its characteristic function) and the lemmatizer. -/
structure NLPEnv where
  stop_words : String → Bool
  lemmatize : String → String

/-- Python `text.lower()`: lower-case each character. -/
def pyLower (s : String) : String := String.mk (s.data.map Char.toLower)

/-- Source `punctuation_remover`: for each string, `re.sub(r'[^\w\s]', '', string)`. -/
def punctuation_remover (strings : List String) : List String :=
  strings.map (fun s => String.mk (s.data.filter keepChar))

/-- Source line `re.sub(r'\s+', ' ', text).strip()`: collapse whitespace
runs to single spaces and trim. -/
def collapse_spaces (s : String) : String :=
  String.mk (joinWithSpace (wsTokens s.data))

/-- NLTK `word_tokenize` as it behaves on its input at this call site
(punctuation-free, whitespace-collapsed text): whitespace tokenization. -/
def word_tokenize (s : String) : List String :=
  (wsTokens s.data).map String.mk

/-- Python `' '.join(tokens)`. -/
def joinTokens (ts : List String) : String :=
  String.mk (joinWithSpace (ts.map String.data))

/-- Source `preprocess_text`.  `none` models a `None`/non-string
`job_description`; the guard `if not text or not isinstance(text, str)`
returns `""` for `none` and for `""`. -/
def preprocess_text (env : NLPEnv) (text : Option String) : String :=
  match text with
  | none => ""
  | some t =>
    if t = "" then ""
    else
      let lowered := pyLower t
      let nopunct := (punctuation_remover [lowered]).headD ""
      let collapsed := collapse_spaces nopunct
      let tokens := word_tokenize collapsed
      let processed := (tokens.filter (fun w => !env.stop_words w)).map env.lemmatize
      joinTokens processed

/-- Per-token step 6 of the spec (§4.1): drop a stop word, otherwise
replace the token with its lemma. -/
def stop_or_lemma (env : NLPEnv) : List String → List String
  | [] => []
  | w :: ws =>
    if env.stop_words w then stop_or_lemma env ws
    else env.lemmatize w :: stop_or_lemma env ws

/-- Spec-side normalizer (§4.1 of the spec), written as the exact sequence
of steps the spec lists: case-fold; strip non-word, non-space characters;
collapse and trim whitespace; tokenize; per-token stop-word drop or
lemmatization; join with single spaces. -/
def normalize_spec (env : NLPEnv) (text : String) : String :=
  let step2 := pyLower text
  let step3 := String.mk (step2.data.filter keepChar)
  let step4 := collapse_spaces step3
  let step5 := word_tokenize step4
  let step6 := stop_or_lemma env step5
  joinTokens step6

theorem stop_or_lemma_eq (env : NLPEnv) (ws : List String) :
    stop_or_lemma env ws = (ws.filter (fun w => !env.stop_words w)).map env.lemmatize := by
  induction ws with
  | nil => rfl
  | cons w ws ih =>
    rw [stop_or_lemma, List.filter_cons]
    by_cases hw : env.stop_words w = true
    · rw [if_pos hw, if_neg (by rw [hw]; simp), ih]
    · have hw' : env.stop_words w = false := eq_false_of_ne_true hw
      rw [if_neg (by rw [hw']; simp), if_pos (by rw [hw']; rfl), List.map_cons, ih]

/-- C1: `preprocess_text` coincides, on every string input, with the spec's
six-step pipeline applied in the spec's order. -/
theorem normalize_follows_spec_steps (env : NLPEnv) (t : String) :
    preprocess_text env (some t) = normalize_spec env t := by
  by_cases h : t = ""
  · subst h
    have hl : preprocess_text env (some "") = "" := rfl
    rw [hl]
    symm
    show String.mk (joinWithSpace ((stop_or_lemma env
      ((wsTokens (joinWithSpace (wsTokens []))).map String.mk)).map String.data)) = ""
    rw [wsTokens_nil, show joinWithSpace [] = ([] : List Char) from rfl, wsTokens_nil]
    rfl
  · show (if t = "" then "" else _) = _
    rw [if_neg h, normalize_spec]
    rw [stop_or_lemma_eq]
    rfl

theorem filter_none {α : Type} (p : α → Bool) (l : List α)
    (h : ∀ x ∈ l, p x = false) : l.filter p = [] := by
  induction l with
  | nil => rfl
  | cons a l ih =>
    rw [List.filter_cons, if_neg (by rw [h a (List.mem_cons_self a l)]; simp)]
    exact ih (fun x hx => h x (List.mem_cons_of_mem a hx))

/-- C6: the normalizer is total and collapses degenerate inputs to the
empty string: an absent (`None`) input, the empty string, and a string of
pure punctuation (no word characters, no whitespace) all normalize to `""`;
being a total Lean function, it raises no error on any input. -/
theorem normalize_total (env : NLPEnv) :
    preprocess_text env none = "" ∧ preprocess_text env (some "") = "" ∧
    ∀ s : String, (∀ c ∈ s.data, isWordChar c = false ∧ isSpaceChar c = false) →
      preprocess_text env (some s) = "" := by
  refine ⟨rfl, rfl, ?_⟩
  intro s hs
  by_cases h : s = ""
  · subst h; rfl
  · show (if s = "" then "" else _) = ""
    rw [if_neg h]
    have hdata : ((pyLower s).data).filter keepChar = [] := by
      apply filter_none
      intro x hx
      have hx' : x ∈ s.data.map Char.toLower := hx
      rcases List.mem_map.mp hx' with ⟨c, hc, rfl⟩
      have hkc : keepChar c = false := by
        rw [keepChar, (hs c hc).1, (hs c hc).2]
        rfl
      exact keepChar_toLower_of_not_keep hkc
    show joinTokens (((word_tokenize (collapse_spaces
      (String.mk ((pyLower s).data.filter keepChar)))).filter
        (fun w => !env.stop_words w)).map env.lemmatize) = ""
    rw [hdata]
    show joinTokens ((((wsTokens (joinWithSpace (wsTokens []))).map String.mk).filter
      (fun w => !env.stop_words w)).map env.lemmatize) = ""
    rw [wsTokens_nil, show joinWithSpace [] = ([] : List Char) from rfl, wsTokens_nil]
    rfl

/-- Concrete instantiation of the external NLTK collaborators used by the
witnesses: a small stop-word set and the identity lemmatizer. -/
def envId : NLPEnv where
  stop_words := fun w => w == "the" || w == "a" || w == "no" || w == "from"
  lemmatize := fun w => w

theorem normalize_total_witness : preprocess_text envId (some "!!!") = "" :=
  (normalize_total envId).2.2 "!!!" (by decide)

theorem preprocess_some_ne (env : NLPEnv) (t : String) (h : t ≠ "") :
    preprocess_text env (some t) =
      joinTokens (((word_tokenize (collapse_spaces
        (String.mk ((pyLower t).data.filter keepChar)))).filter
          (fun w => !env.stop_words w)).map env.lemmatize) := by
  show (if t = "" then "" else _) = _
  rw [if_neg h]
  rfl

theorem collapse_spaces_mk (X : List Char) :
    collapse_spaces (String.mk X) = String.mk (joinWithSpace (wsTokens X)) := rfl

theorem word_tokenize_mk (X : List Char) :
    word_tokenize (String.mk X) = (wsTokens X).map String.mk := rfl

theorem mk_ne_empty_of_ne_nil {t : List Char} (h : t ≠ []) : String.mk t ≠ "" := by
  intro hcon
  exact h (congrArg String.data hcon)

/-- Strings whose tokens are nonempty, made only of word characters, fixed
under lower-casing, not stop words, and fixed points of the lemmatizer are
themselves fixed points of the whole normalizer. -/
theorem normalize_fixed (env : NLPEnv) (ts : List String)
    (hts : ∀ w ∈ ts, w ≠ "" ∧ (∀ c ∈ w.data, isWordChar c = true) ∧
      (∀ c ∈ w.data, c.toLower = c) ∧ env.stop_words w = false ∧
      env.lemmatize w = w) :
    preprocess_text env (some (joinTokens ts)) = joinTokens ts := by
  have hLprops : ∀ t ∈ ts.map String.data, t ≠ [] ∧ ∀ c ∈ t, isSpaceChar c = false := by
    intro t ht
    rcases List.mem_map.mp ht with ⟨w, hw, rfl⟩
    obtain ⟨h1, h2, _, _, _⟩ := hts w hw
    refine ⟨fun hn => h1 ?_, fun c hc => word_not_space (h2 c hc)⟩
    have : String.mk w.data = String.mk [] := congrArg String.mk hn
    exact this
  by_cases hJ : joinWithSpace (ts.map String.data) = []
  · have hy : joinTokens ts = "" := by
      rw [joinTokens, hJ]
    rw [hy]
    rfl
  · have hne : joinTokens ts ≠ "" := mk_ne_empty_of_ne_nil hJ
    rw [preprocess_some_ne env _ hne]
    have e1 : (pyLower (joinTokens ts)).data.filter keepChar =
        joinWithSpace (ts.map String.data) := by
      show ((joinWithSpace (ts.map String.data)).map Char.toLower).filter keepChar = _
      have hlow : ∀ c ∈ joinWithSpace (ts.map String.data), c.toLower = c := by
        intro c hc
        rcases mem_joinWithSpace hc with h1 | ⟨t, ht, hct⟩
        · subst h1; decide
        · rcases List.mem_map.mp ht with ⟨w, hw, rfl⟩
          exact (hts w hw).2.2.1 c hct
      have hkeep : ∀ c ∈ joinWithSpace (ts.map String.data), keepChar c = true := by
        intro c hc
        rcases mem_joinWithSpace hc with h1 | ⟨t, ht, hct⟩
        · subst h1; decide
        · rcases List.mem_map.mp ht with ⟨w, hw, rfl⟩
          rw [keepChar, (hts w hw).2.1 c hct]
          rfl
      rw [map_id_of Char.toLower _ hlow, filter_all keepChar _ hkeep]
    rw [e1]
    have e2 : wsTokens (joinWithSpace (ts.map String.data)) = ts.map String.data :=
      wsTokens_joinWithSpace _ hLprops
    rw [collapse_spaces_mk, e2, word_tokenize_mk, e2]
    have e3 : (ts.map String.data).map String.mk = ts := by
      rw [List.map_map]
      exact map_id_of _ _ (fun w _ => rfl)
    rw [e3]
    rw [filter_all _ ts (fun w hw => by rw [(hts w hw).2.2.2.1]; rfl)]
    rw [map_id_of env.lemmatize ts (fun w hw => (hts w hw).2.2.2.2)]

/-- C7 (amended): the normalizer is idempotent on every input, provided
the external NLTK collaborators satisfy the contract the pipeline assumes
of them — the tokenizer segments the punctuation-free, whitespace-collapsed
text purely on whitespace (as `word_tokenize` is modelled here), and on a
nonempty, lower-case, all-word-character, non-stop-word token the
lemmatizer yields a nonempty, lower-case, all-word-character lemma that is
not a stop word and is its own lemma.  The real NLTK collaborators violate
this contract (WordNet lemmatizes the non-stop-word "cans" to the stop word
"can"), and with them the source is not idempotent — see the
counterexample below. -/
theorem normalize_idempotent (env : NLPEnv)
    (hlem : ∀ w : String, w ≠ "" → (∀ c ∈ w.data, isWordChar c = true) →
      (∀ c ∈ w.data, c.toLower = c) → env.stop_words w = false →
      env.lemmatize w ≠ "" ∧ (∀ c ∈ (env.lemmatize w).data, isWordChar c = true) ∧
      (∀ c ∈ (env.lemmatize w).data, c.toLower = c) ∧
      env.stop_words (env.lemmatize w) = false ∧
      env.lemmatize (env.lemmatize w) = env.lemmatize w)
    (x : String) :
    preprocess_text env (some (preprocess_text env (some x))) =
      preprocess_text env (some x) := by
  by_cases hx : x = ""
  · subst hx
    have h0 : preprocess_text env (some "") = "" := rfl
    rw [h0]
    exact h0
  · rw [preprocess_some_ne env x hx]
    have hrt : wsTokens (joinWithSpace (wsTokens ((pyLower x).data.filter keepChar))) =
        wsTokens ((pyLower x).data.filter keepChar) :=
      wsTokens_joinWithSpace _ (wsTokens_sound _)
    rw [collapse_spaces_mk, word_tokenize_mk, hrt]
    apply normalize_fixed
    intro w hw
    rcases List.mem_map.mp hw with ⟨u, hu, rfl⟩
    rcases List.mem_filter.mp hu with ⟨hut, hus⟩
    rcases List.mem_map.mp hut with ⟨t, htl, rfl⟩
    obtain ⟨htne, htns⟩ := wsTokens_sound _ t htl
    have hsub := wsTokens_subset _ t htl
    have hword : ∀ c ∈ t, isWordChar c = true := by
      intro c hc
      have hcD := hsub c hc
      have hkc := (List.mem_filter.mp hcD).2
      have hns := htns c hc
      rw [keepChar, hns, Bool.or_false] at hkc
      exact hkc
    have hlow : ∀ c ∈ t, c.toLower = c := by
      intro c hc
      have hcD := hsub c hc
      have hcL : c ∈ x.data.map Char.toLower := (List.mem_filter.mp hcD).1
      rcases List.mem_map.mp hcL with ⟨c0, _, rfl⟩
      exact toLower_toLower c0
    have hmkne : String.mk t ≠ "" := mk_ne_empty_of_ne_nil htne
    have hstop : env.stop_words (String.mk t) = false := by
      simpa using hus
    exact hlem (String.mk t) hmkne hword hlow hstop

theorem normalize_idempotent_witness :
    preprocess_text envId (some (preprocess_text envId (some "The Cat!! sat,  no."))) =
      preprocess_text envId (some "The Cat!! sat,  no.") :=
  normalize_idempotent envId
    (fun _ h1 h2 h3 h4 => ⟨h1, h2, h3, h4, rfl⟩) "The Cat!! sat,  no."

/-- The real NLTK collaborators restricted to the words the idempotence
counterexample touches: "can" and "will" are members of NLTK's English
stop-word list, and the WordNet noun-form lemmatizer maps the
non-stop-words "cans" and "wills" to them. -/
def envNltk : NLPEnv where
  stop_words := fun w =>
    w == "can" || w == "will" || w == "the" || w == "a" || w == "no" || w == "from"
  lemmatize := fun w =>
    if w == "cans" then "can" else if w == "wills" then "will" else w

theorem preprocess_envNltk_cans : preprocess_text envNltk (some "cans") = "can" := by
  rw [preprocess_some_ne envNltk "cans" (by decide)]
  have h1 : String.mk ((pyLower "cans").data.filter keepChar) = "cans" := by decide
  rw [h1]
  have h2 : wsTokens ("cans".data) = ["cans".data] :=
    wsTokens_single "cans".data (by decide) (by decide)
  have h3 : collapse_spaces "cans" = "cans" := by
    show String.mk (joinWithSpace (wsTokens "cans".data)) = "cans"
    rw [h2]
    rfl
  have h4 : word_tokenize "cans" = ["cans"] := by
    show (wsTokens "cans".data).map String.mk = ["cans"]
    rw [h2]
    rfl
  rw [h3, h4]
  rfl

theorem preprocess_envNltk_can : preprocess_text envNltk (some "can") = "" := by
  rw [preprocess_some_ne envNltk "can" (by decide)]
  have h1 : String.mk ((pyLower "can").data.filter keepChar) = "can" := by decide
  rw [h1]
  have h2 : wsTokens ("can".data) = ["can".data] :=
    wsTokens_single "can".data (by decide) (by decide)
  have h3 : collapse_spaces "can" = "can" := by
    show String.mk (joinWithSpace (wsTokens "can".data)) = "can"
    rw [h2]
    rfl
  have h4 : word_tokenize "can" = ["can"] := by
    show (wsTokens "can".data).map String.mk = ["can"]
    rw [h2]
    rfl
  rw [h3, h4]
  rfl

/-- C7 counterexample: with the collaborators behaving as the real NLTK
stop-word list and WordNet lemmatizer do on these words, the normalizer
maps "cans" to "can", whose lemma is a stop word of the second pass, so
re-normalizing yields "" and idempotence fails at the input "cans". -/
theorem normalize_not_idempotent :
    preprocess_text envNltk (some "cans") = "can" ∧
    preprocess_text envNltk (some (preprocess_text envNltk (some "cans"))) = "" ∧
    preprocess_text envNltk (some (preprocess_text envNltk (some "cans"))) ≠
      preprocess_text envNltk (some "cans") := by
  refine ⟨preprocess_envNltk_cans, ?_, ?_⟩
  · rw [preprocess_envNltk_cans]
    exact preprocess_envNltk_can
  · rw [preprocess_envNltk_cans]
    rw [preprocess_envNltk_can]
    decide

/-! ## Artifact store, registry and cache (`load_model_and_vectorizer`)

The artifact store abstracts `joblib.load` over the `model_assets`
directory: `FileNotFoundError` and every other load-time exception
(unreadable or corrupt file) are the two failure kinds.  The module-level
dicts `model_cache` / `vectorizer_cache` are the explicit `CacheState`. -/

/-- Failure of `joblib.load(path)`: the file is absent (`FileNotFoundError`)
or unreadable/corrupt (any other exception), with the exception message. -/
inductive StoreError where
  | fileNotFound (msg : String)
  | corrupt (msg : String)
deriving DecidableEq

/-- Errors escaping `load_model_and_vectorizer`: the `ValueError` for an
unregistered label (carrying the list of valid identifiers, as in the
message `Available models: ...`), the re-raised `FileNotFoundError`
(carrying the label and the underlying cause), and any other exception
propagating unwrapped out of the `try` block. -/
inductive LoadError where
  | unknownModel (label : Option String) (available : List String)
  | artifactMissing (label : String) (cause : String)
  | loadOther (cause : String)
deriving DecidableEq

/-- The source's `MODEL_CONFIG` table: label, model filename, vectorizer
filename. -/
def MODEL_CONFIG : List (String × String × String) :=
  [("nb_bow", "nb_model_bow.joblib", "bow_vectorizer.joblib"),
   ("nb_bow_res", "nb_model_bow_res.joblib", "bow_vectorizer.joblib"),
   ("nb_tfidf", "nb_model_tfidf.joblib", "tfidf_vectorizer.joblib"),
   ("nb_tfidf_res", "nb_model_tfidf_res.joblib", "tfidf_vectorizer.joblib"),
   ("lr_bow", "lr_model_bow.joblib", "bow_vectorizer.joblib"),
   ("lr_bow_res", "lr_model_bow_res.joblib", "bow_vectorizer.joblib"),
   ("lr_tfidf", "lr_model_tfidf.joblib", "tfidf_vectorizer.joblib"),
   ("lr_tfidf_res", "lr_model_tfidf_res.joblib", "tfidf_vectorizer.joblib")]

/-- Python `list(MODEL_CONFIG.keys())`. -/
def modelKeys : List String := MODEL_CONFIG.map Prod.fst

/-- The Python membership test `model_label in MODEL_CONFIG` for an
`Optional[str]` label; `None` is a key of no dict. -/
def labelInConfig : Option String → Bool
  | none => false
  | some l => (MODEL_CONFIG.lookup l).isSome

/-- The two module-level caches, as maps from label to cached artifact. -/
structure CacheState (A : Type) where
  model_cache : String → Option A
  vectorizer_cache : String → Option A

def emptyCache (A : Type) : CacheState A :=
  { model_cache := fun _ => none, vectorizer_cache := fun _ => none }

/-- How a Python exception from `joblib.load` leaves
`load_model_and_vectorizer`: `FileNotFoundError` is caught and re-raised
with the label and the cause; any other exception propagates unwrapped. -/
def wrapStoreError (label : String) : StoreError → LoadError
  | .fileNotFound msg => .artifactMissing label msg
  | .corrupt msg => .loadOther msg

/-- The cache-miss path of `load_model_and_vectorizer` (source lines
124-140): load the two artifacts, then store both under the label before
returning; on failure the caches are untouched. -/
def loadFromDisk {A : Type} (st : CacheState A) (store : String → Except StoreError A)
    (label model_filename vectorizer_filename : String) :
    Except LoadError (A × A) × CacheState A :=
  match store model_filename with
  | .error e => (.error (wrapStoreError label e), st)
  | .ok model =>
    match store vectorizer_filename with
    | .error e => (.error (wrapStoreError label e), st)
    | .ok vectorizer =>
      (.ok (model, vectorizer),
        { model_cache := fun k => if k = label then some model else st.model_cache k,
          vectorizer_cache := fun k => if k = label then some vectorizer else st.vectorizer_cache k })

/-- Source `load_model_and_vectorizer`.  The registry lookup is pure, so
reading the filenames before the cache test is observationally identical to
the source's order (membership test, cache test, filename lookup). -/
def load_model_and_vectorizer {A : Type} (st : CacheState A)
    (store : String → Except StoreError A) (model_label : Option String) :
    Except LoadError (A × A) × CacheState A :=
  match model_label with
  | none => (.error (.unknownModel none modelKeys), st)
  | some label =>
    match MODEL_CONFIG.lookup label with
    | none => (.error (.unknownModel (some label) modelKeys), st)
    | some (model_filename, vectorizer_filename) =>
      match st.model_cache label, st.vectorizer_cache label with
      | some m, some v => (.ok (m, v), st)
      | _, _ => loadFromDisk st store label model_filename vectorizer_filename

theorem load_eq_hit {A : Type} (st : CacheState A) (store : String → Except StoreError A)
    (lbl fm fv : String) (m v : A)
    (hc : MODEL_CONFIG.lookup lbl = some (fm, fv))
    (hm : st.model_cache lbl = some m) (hv : st.vectorizer_cache lbl = some v) :
    load_model_and_vectorizer st store (some lbl) = (.ok (m, v), st) := by
  simp only [load_model_and_vectorizer, hc, hm, hv]

theorem load_eq_miss {A : Type} (st : CacheState A) (store : String → Except StoreError A)
    (lbl fm fv : String)
    (hc : MODEL_CONFIG.lookup lbl = some (fm, fv))
    (hmiss : st.model_cache lbl = none ∨ st.vectorizer_cache lbl = none) :
    load_model_and_vectorizer st store (some lbl) = loadFromDisk st store lbl fm fv := by
  rcases hmiss with hm | hv
  · simp only [load_model_and_vectorizer, hc, hm]
  · cases hm0 : st.model_cache lbl with
    | none => simp only [load_model_and_vectorizer, hc, hm0]
    | some m => simp only [load_model_and_vectorizer, hc, hm0, hv]

/-- C3: resolving a label outside the registry fails with the unknown-model
error carrying the set of valid identifiers; the result does not depend on
the store (no load is performed) and the caches are returned unchanged. -/
theorem unknown_model_rejected {A : Type} (st : CacheState A)
    (store : String → Except StoreError A) (lbl : Option String)
    (h : labelInConfig lbl = false) :
    load_model_and_vectorizer st store lbl =
      (.error (.unknownModel lbl modelKeys), st) := by
  match lbl with
  | none => rfl
  | some l =>
    cases hc : MODEL_CONFIG.lookup l with
    | none => simp only [load_model_and_vectorizer, hc]
    | some cfg =>
      rw [labelInConfig, hc] at h
      simp at h

theorem unknown_model_rejected_witness :
    load_model_and_vectorizer (emptyCache Nat) (fun _ => .ok 0) (some "made_up_model") =
      (.error (.unknownModel (some "made_up_model") modelKeys), emptyCache Nat) :=
  unknown_model_rejected (emptyCache Nat) (fun _ => .ok 0) (some "made_up_model") (by decide)

/-- C4: after a successful resolution the pair is stored under the label
(on a miss it is stored before being returned), and every later resolution
of the same label from the resulting state is a cache hit: it returns the
same memoized pair and the same state, for any store whatsoever (no load
from storage). -/
theorem cache_memoization {A : Type} (st st₁ : CacheState A)
    (store : String → Except StoreError A) (lbl : String) (m v : A)
    (hsucc : load_model_and_vectorizer st store (some lbl) = (.ok (m, v), st₁)) :
    st₁.model_cache lbl = some m ∧ st₁.vectorizer_cache lbl = some v ∧
    ∀ store' : String → Except StoreError A,
      load_model_and_vectorizer st₁ store' (some lbl) = (.ok (m, v), st₁) := by
  cases hc : MODEL_CONFIG.lookup lbl with
  | none =>
    rw [load_model_and_vectorizer] at hsucc
    simp only [hc] at hsucc
    exact absurd (congrArg Prod.fst hsucc) (by simp)
  | some cfg =>
    obtain ⟨fm, fv⟩ := cfg
    cases hm : st.model_cache lbl with
    | some m' =>
      cases hv : st.vectorizer_cache lbl with
      | some v' =>
        rw [load_eq_hit st store lbl fm fv m' v' hc hm hv] at hsucc
        have h1 : m' = m ∧ v' = v ∧ st = st₁ := by
          have hfst := congrArg Prod.fst hsucc
          have hsnd := congrArg Prod.snd hsucc
          simp only at hfst hsnd
          have := Except.ok.inj hfst
          exact ⟨(Prod.mk.injEq _ _ _ _).mp this |>.1,
                 (Prod.mk.injEq _ _ _ _).mp this |>.2, hsnd⟩
        obtain ⟨rfl, rfl, rfl⟩ := h1
        exact ⟨hm, hv, fun store' => load_eq_hit st store' lbl fm fv m' v' hc hm hv⟩
      | none =>
        rw [load_eq_miss st store lbl fm fv hc (Or.inr hv), loadFromDisk] at hsucc
        cases hsm : store fm with
        | error e =>
          rw [hsm] at hsucc
          exact absurd (congrArg Prod.fst hsucc) (by simp)
        | ok a =>
          rw [hsm] at hsucc
          cases hsv : store fv with
          | error e =>
            rw [hsv] at hsucc
            exact absurd (congrArg Prod.fst hsucc) (by simp)
          | ok b =>
            rw [hsv] at hsucc
            have hfst := congrArg Prod.fst hsucc
            have hsnd := congrArg Prod.snd hsucc
            simp only at hfst hsnd
            have hab := Except.ok.inj hfst
            obtain ⟨rfl, rfl⟩ := (Prod.mk.injEq _ _ _ _).mp hab
            rw [← hsnd]
            refine ⟨by simp, by simp, fun store' => ?_⟩
            exact load_eq_hit _ store' lbl fm fv a b hc (by simp) (by simp)
    | none =>
      rw [load_eq_miss st store lbl fm fv hc (Or.inl hm), loadFromDisk] at hsucc
      cases hsm : store fm with
      | error e =>
        rw [hsm] at hsucc
        exact absurd (congrArg Prod.fst hsucc) (by simp)
      | ok a =>
        rw [hsm] at hsucc
        cases hsv : store fv with
        | error e =>
          rw [hsv] at hsucc
          exact absurd (congrArg Prod.fst hsucc) (by simp)
        | ok b =>
          rw [hsv] at hsucc
          have hfst := congrArg Prod.fst hsucc
          have hsnd := congrArg Prod.snd hsucc
          simp only at hfst hsnd
          have hab := Except.ok.inj hfst
          obtain ⟨rfl, rfl⟩ := (Prod.mk.injEq _ _ _ _).mp hab
          rw [← hsnd]
          refine ⟨by simp, by simp, fun store' => ?_⟩
          exact load_eq_hit _ store' lbl fm fv a b hc (by simp) (by simp)

theorem cache_memoization_witness :
    ((load_model_and_vectorizer (emptyCache Nat) (fun _ => .ok 5) (some "nb_bow")).2.model_cache
        "nb_bow" = some 5) ∧
    load_model_and_vectorizer
        (load_model_and_vectorizer (emptyCache Nat) (fun _ => .ok 5) (some "nb_bow")).2
        (fun _ => .error (.fileNotFound "storage gone")) (some "nb_bow") =
      (.ok (5, 5), (load_model_and_vectorizer (emptyCache Nat) (fun _ => .ok 5) (some "nb_bow")).2) :=
  ⟨(cache_memoization (emptyCache Nat) _ (fun _ => .ok 5) "nb_bow" 5 5 rfl).1,
   (cache_memoization (emptyCache Nat) _ (fun _ => .ok 5) "nb_bow" 5 5 rfl).2.2
     (fun _ => .error (.fileNotFound "storage gone"))⟩

/-- C5 (amended): on a cache miss for a registered label, an absent file
(`FileNotFoundError`) fails the resolution with the artifact-missing error
carrying the label and the underlying cause, while an unreadable/corrupt
file makes the underlying error propagate unwrapped (not as the
artifact-missing kind); in either case the caches are returned unchanged
(no negative result is recorded), so a later resolution with a healthy
store succeeds. -/
theorem artifact_load_failure {A : Type} (st : CacheState A)
    (store store₂ : String → Except StoreError A) (lbl fm fv : String) (err : StoreError)
    (hc : MODEL_CONFIG.lookup lbl = some (fm, fv))
    (hmiss : st.model_cache lbl = none ∨ st.vectorizer_cache lbl = none)
    (herr : store fm = .error err ∨ ∃ a, store fm = .ok a ∧ store fv = .error err) :
    load_model_and_vectorizer st store (some lbl) =
      (.error (wrapStoreError lbl err), st) ∧
    ∀ a b, store₂ fm = .ok a → store₂ fv = .ok b →
      (load_model_and_vectorizer st store₂ (some lbl)).1 = .ok (a, b) := by
  constructor
  · rw [load_eq_miss st store lbl fm fv hc hmiss, loadFromDisk]
    rcases herr with h1 | ⟨a, h1, h2⟩
    · rw [h1]
    · rw [h1, h2]
  · intro a b h1 h2
    rw [load_eq_miss st store₂ lbl fm fv hc hmiss, loadFromDisk, h1, h2]

theorem artifact_load_failure_witness :
    load_model_and_vectorizer (emptyCache Nat)
        (fun _ => .error (.fileNotFound "no such file")) (some "nb_bow") =
      (.error (.artifactMissing "nb_bow" "no such file"), emptyCache Nat) ∧
    (load_model_and_vectorizer (emptyCache Nat) (fun _ => .ok 7) (some "nb_bow")).1 =
      .ok (7, 7) :=
  ⟨(artifact_load_failure (emptyCache Nat)
      (fun _ => .error (.fileNotFound "no such file")) (fun _ => .ok 7)
      "nb_bow" "nb_model_bow.joblib" "bow_vectorizer.joblib"
      (.fileNotFound "no such file") rfl (Or.inl rfl) (Or.inl rfl)).1,
   (artifact_load_failure (emptyCache Nat)
      (fun _ => .error (.fileNotFound "no such file")) (fun _ => .ok 7)
      "nb_bow" "nb_model_bow.joblib" "bow_vectorizer.joblib"
      (.fileNotFound "no such file") rfl (Or.inl rfl) (Or.inl rfl)).2 7 7 rfl rfl⟩

/-- Recognizer for the artifact-missing (re-raised `FileNotFoundError`)
failure kind of a resolution result. -/
def errIsArtifactMissing {A : Type} : Except LoadError A → Bool
  | .error (.artifactMissing _ _) => true
  | _ => false

/-- Store stub for the C5 counterexample: the model file of `nb_bow` loads,
its vectorizer file is unreadable/corrupt. -/
def corruptStore : String → Except StoreError Nat :=
  fun f => if f = "nb_model_bow.joblib" then .ok 0 else .error (.corrupt "bad pickle")

/-- C5 counterexample: with a registered label whose vectorizer file is
corrupt (not absent), the resolution fails with the unwrapped underlying
error, not with the artifact-missing kind the claim requires for
"absent or unreadable/corrupt". -/
theorem artifact_corrupt_not_missing :
    load_model_and_vectorizer (emptyCache Nat) corruptStore (some "nb_bow") =
      (.error (.loadOther "bad pickle"), emptyCache Nat) ∧
    errIsArtifactMissing
      (load_model_and_vectorizer (emptyCache Nat) corruptStore (some "nb_bow")).1 = false :=
  ⟨rfl, rfl⟩

/-- Key-set agreement of the two caches. -/
def cachesConsistent {A : Type} (st : CacheState A) : Prop :=
  ∀ k, (st.model_cache k).isSome = (st.vectorizer_cache k).isSome

/-- C9: every resolution either inserts into both caches under the same key
or into neither, so key-set agreement of the two caches is preserved; and
the memoized-pair fast path is taken only when the label is present in both
caches — if either entry is absent the load path is executed. -/
theorem cache_keys_aligned {A : Type} (st : CacheState A)
    (store : String → Except StoreError A) (lbl : Option String) :
    (cachesConsistent st →
      cachesConsistent (load_model_and_vectorizer st store lbl).2) ∧
    (∀ l fm fv, MODEL_CONFIG.lookup l = some (fm, fv) →
      (st.model_cache l = none ∨ st.vectorizer_cache l = none) →
      load_model_and_vectorizer st store (some l) = loadFromDisk st store l fm fv) := by
  constructor
  · intro hcons
    match lbl with
    | none => exact hcons
    | some l =>
      cases hc : MODEL_CONFIG.lookup l with
      | none =>
        simp only [load_model_and_vectorizer, hc]
        exact hcons
      | some cfg =>
        obtain ⟨fm, fv⟩ := cfg
        cases hm : st.model_cache l with
        | some m =>
          cases hv : st.vectorizer_cache l with
          | some v =>
            rw [load_eq_hit st store l fm fv m v hc hm hv]
            exact hcons
          | none =>
            rw [load_eq_miss st store l fm fv hc (Or.inr hv)]
            rw [loadFromDisk]
            cases hsm : store fm with
            | error e => exact hcons
            | ok a =>
              cases hsv : store fv with
              | error e => exact hcons
              | ok b =>
                intro k
                by_cases hk : k = l
                · subst hk; simp
                · simpa [hk] using hcons k
        | none =>
          rw [load_eq_miss st store l fm fv hc (Or.inl hm)]
          rw [loadFromDisk]
          cases hsm : store fm with
          | error e => exact hcons
          | ok a =>
            cases hsv : store fv with
            | error e => exact hcons
            | ok b =>
              intro k
              by_cases hk : k = l
              · subst hk; simp
              · simpa [hk] using hcons k
  · intro l fm fv hc hmiss
    exact load_eq_miss st store l fm fv hc hmiss

theorem cache_keys_aligned_witness :
    (((load_model_and_vectorizer (emptyCache Nat) (fun _ => .ok 3) (some "nb_bow")).2.model_cache
        "nb_bow").isSome =
      ((load_model_and_vectorizer (emptyCache Nat) (fun _ => .ok 3) (some "nb_bow")).2.vectorizer_cache
        "nb_bow").isSome) ∧
    load_model_and_vectorizer (emptyCache Nat) (fun _ => .ok 3) (some "nb_bow") =
      loadFromDisk (emptyCache Nat) (fun _ => .ok 3) "nb_bow"
        "nb_model_bow.joblib" "bow_vectorizer.joblib" :=
  ⟨(cache_keys_aligned (emptyCache Nat) (fun _ => .ok 3) (some "nb_bow")).1
      (fun _ => rfl) "nb_bow",
   (cache_keys_aligned (emptyCache Nat) (fun _ => .ok 3) (some "nb_bow")).2
      "nb_bow" "nb_model_bow.joblib" "bow_vectorizer.joblib" rfl (Or.inl rfl)⟩

/-! ## Prediction Service (`predict_fraud`)

A loaded artifact is a duck-typed object; the three capabilities invoked by
the endpoint are `transform` (on a one-document batch), `predict` (a row of
class codes) and `predict_proba` (a row of per-class probability rows).
Python list indexing `[i]` is `List.get? i`, with the out-of-range branch
modelling the `IndexError` that would escape the endpoint uncaught. -/

/-- Duck-typed loadable artifact: the capabilities `predict_fraud` invokes
on the objects returned by `joblib.load`, over an opaque feature-vector
type `φ`. -/
structure SkArtifact (φ : Type) where
  transform : List String → φ
  predict : φ → List Nat
  predict_proba : φ → List (List ℚ)

/-- Source `PredictionRequest`: `job_description: str`,
`model_label: Optional[str]` (the pydantic default is applied at parse
time, see `parse_model_label`). -/
structure PredictionRequest where
  job_description : String
  model_label : Option String

/-- The named probability pair of the response body. -/
structure Probabilities where
  non_fraudulent : ℚ
  fraudulent : ℚ
deriving DecidableEq

/-- The response dict assembled by `predict_fraud`. -/
structure PredictionResponse where
  prediction_label : String
  prediction_code : Nat
  confidence_score : ℚ
  probabilities : Probabilities
  input_text_length : Nat
  cleaned_text_length : Nat
  model_used : Option String
deriving DecidableEq

/-- Failures escaping the endpoint: `HTTPException(status, detail)` (400
for the unknown-model `ValueError`, 500 for load failures), or an uncaught
`IndexError` from list indexing (surfacing as a transport-level 500). -/
inductive PredictError where
  | http (status : Nat) (detail : LoadError)
  | indexError
deriving DecidableEq

/-- Source `predict_fraud` (the `/predict` endpoint body). -/
def predict_fraud {φ : Type} (env : NLPEnv) (st : CacheState (SkArtifact φ))
    (store : String → Except StoreError (SkArtifact φ)) (data : PredictionRequest) :
    Except PredictError PredictionResponse × CacheState (SkArtifact φ) :=
  match load_model_and_vectorizer st store data.model_label with
  | (.error (LoadError.unknownModel l ks), st') =>
    (.error (.http 400 (.unknownModel l ks)), st')
  | (.error (LoadError.artifactMissing l c), st') =>
    (.error (.http 500 (.artifactMissing l c)), st')
  | (.error (LoadError.loadOther c), st') =>
    (.error (.http 500 (.loadOther c)), st')
  | (.ok (model, vectorizer), st') =>
    let cleaned_text := preprocess_text env (some data.job_description)
    let text_input := [cleaned_text]
    let text_features := vectorizer.transform text_input
    match (model.predict text_features).get? 0 with
    | none => (.error .indexError, st')
    | some prediction_code =>
      match (model.predict_proba text_features).get? 0 with
      | none => (.error .indexError, st')
      | some probabilities =>
        match probabilities.get? prediction_code,
              probabilities.get? 0, probabilities.get? 1 with
        | some confidence_score, some p0, some p1 =>
          (.ok { prediction_label :=
                   if prediction_code == 1 then "Fraudulent (Fake)"
                   else "Non-Fraudulent (Real)",
                 prediction_code := prediction_code,
                 confidence_score := confidence_score,
                 probabilities := { non_fraudulent := p0, fraudulent := p1 },
                 input_text_length := data.job_description.length,
                 cleaned_text_length := cleaned_text.length,
                 model_used := data.model_label }, st')
        | _, _, _ => (.error .indexError, st')

/-- C2: when resolution succeeds and the classifier behaves as a binary
scikit-learn classifier on the features of the normalized text (one
predicted code, one two-entry probability row, code = argmax with ties
going to class 0), the endpoint succeeds and returns: the label determined
by the code, the code itself, confidence equal to `probabilities[code]`,
both named probabilities, the raw input length, the normalized-text length
and the request's model label; moreover the confidence is the probability
of the predicted class and the code is the index of the strictly larger
probability. -/
theorem predict_response_consistent {φ : Type} (env : NLPEnv)
    (st st₁ : CacheState (SkArtifact φ))
    (store : String → Except StoreError (SkArtifact φ)) (data : PredictionRequest)
    (m v : SkArtifact φ) (c : Nat) (p0 p1 : ℚ)
    (hres : load_model_and_vectorizer st store data.model_label = (.ok (m, v), st₁))
    (hpred : m.predict (v.transform [preprocess_text env (some data.job_description)]) = [c])
    (hprob : m.predict_proba (v.transform [preprocess_text env (some data.job_description)]) =
      [[p0, p1]])
    (hargmax : (p0 < p1 ∧ c = 1) ∨ (p1 ≤ p0 ∧ c = 0)) :
    predict_fraud env st store data =
      (.ok { prediction_label :=
               if c == 1 then "Fraudulent (Fake)" else "Non-Fraudulent (Real)",
             prediction_code := c,
             confidence_score := [p0, p1].getD c 0,
             probabilities := { non_fraudulent := p0, fraudulent := p1 },
             input_text_length := data.job_description.length,
             cleaned_text_length := (preprocess_text env (some data.job_description)).length,
             model_used := data.model_label }, st₁) ∧
    [p0, p1].getD c 0 = (if c == 1 then p1 else p0) ∧
    (p0 < p1 → c = 1) ∧ (p1 < p0 → c = 0) := by
  have hc : c = 0 ∨ c = 1 := by
    rcases hargmax with ⟨_, h⟩ | ⟨_, h⟩
    · exact Or.inr h
    · exact Or.inl h
  refine ⟨?_, ?_, ?_, ?_⟩
  · rw [predict_fraud]
    simp only [hres, hpred, hprob]
    rcases hc with rfl | rfl <;> simp [List.getD]
  · rcases hc with rfl | rfl <;> simp [List.getD]
  · intro hlt
    rcases hargmax with ⟨_, h⟩ | ⟨hle, _⟩
    · exact h
    · exact absurd hlt (not_lt.mpr hle)
  · intro hlt
    rcases hargmax with ⟨hlt', _⟩ | ⟨_, h⟩
    · exact absurd hlt (not_lt.mpr (le_of_lt hlt'))
    · exact h

/-- Concrete artifact stub for the C2 witness: a classifier/vectorizer pair
predicting class 1 with probability row `[1/4, 3/4]`. -/
def artifactW : SkArtifact Nat where
  transform := fun _ => 0
  predict := fun _ => [1]
  predict_proba := fun _ => [[(1 : ℚ)/4, (3 : ℚ)/4]]

def storeW : String → Except StoreError (SkArtifact Nat) := fun _ => .ok artifactW

def reqW : PredictionRequest := { job_description := "", model_label := some "nb_bow" }

def stW1 : CacheState (SkArtifact Nat) :=
  (load_model_and_vectorizer (emptyCache (SkArtifact Nat)) storeW (some "nb_bow")).2

theorem predict_response_consistent_witness :
    predict_fraud envId (emptyCache (SkArtifact Nat)) storeW reqW =
      (.ok { prediction_label := "Fraudulent (Fake)",
             prediction_code := 1,
             confidence_score := (3 : ℚ)/4,
             probabilities := { non_fraudulent := (1 : ℚ)/4, fraudulent := (3 : ℚ)/4 },
             input_text_length := 0,
             cleaned_text_length := 0,
             model_used := some "nb_bow" }, stW1) :=
  (predict_response_consistent envId (emptyCache (SkArtifact Nat)) stW1 storeW reqW
    artifactW artifactW 1 ((1 : ℚ)/4) ((3 : ℚ)/4) rfl rfl rfl
    (Or.inl ⟨by norm_num, rfl⟩)).1

/-- The pydantic parse of the `model_label` field of the request body
(`model_label: Optional[str] = "nb_bow"`): an absent field takes the
default `"nb_bow"`; an explicitly supplied value — including an explicit
`null` — is taken as given. -/
def parse_model_label : Option (Option String) → Option String
  | none => some "nb_bow"
  | some v => v

/-- C10: the default model identifier applies only to an absent
`model_label` field; a request carrying an explicit `null` is parsed to
`None`, does not fall back to the default, and makes the endpoint fail
with the 400 unknown-model error (which carries the registry keys), with
the caches unchanged. -/
theorem default_label_only_when_absent :
    parse_model_label none = some "nb_bow" ∧
    parse_model_label (some none) = none ∧
    ∀ (φ : Type) (env : NLPEnv) (st : CacheState (SkArtifact φ))
      (store : String → Except StoreError (SkArtifact φ)) (desc : String),
      predict_fraud env st store
          { job_description := desc, model_label := parse_model_label (some none) } =
        (.error (.http 400 (.unknownModel none modelKeys)), st) :=
  ⟨rfl, rfl, fun _ _ _ _ _ => rfl⟩
